import Mathlib

/-!
Verification of the psrdada_filterbankdb core against its specification.

The development shallowly embeds the two source modules:

* `Sigproc` — the sigproc filterbank header codec and data reader
  (`src/dada_fildb/sigproc.py`): byte streams are `List Nat` (byte values),
  Python strings and bytes objects are byte lists, 4-byte little-endian
  integers and 8-byte IEEE-754 doubles are modelled at the byte level
  (a double value is represented by its 8-byte pattern, which
  `struct.pack`/`struct.unpack` preserve exactly).  Python-3 numbers are
  modelled by `PyNum`, which distinguishes ints from floats because true
  division (`/`) always produces a float and several library calls
  (mmap slicing, `range`, `reshape`) reject floats with `TypeError`.
  Float values are modelled by exact rationals; every theorem below only
  relies on float computations that are exact in IEEE binary64.

* `Dada` — the page assembler (`src/dada_fildb/dada_fildb.py`): NumPy
  two-dimensional blocks are `NpMat` (explicit shape plus an entry
  function), with NumPy assignment-broadcast semantics made explicit,
  and the ring-buffer write loop is a fuel-indexed event trace.

Exceptions are modelled as `none` / dedicated error constructors.
-/

namespace Fildb

/-- Byte values of an ASCII string (all sigproc header names are ASCII,
so code points and UTF-8 bytes coincide). -/
def asciiBytes (s : String) : List Nat := s.data.map Char.toNat

/-- The three value types of the sigproc header field table
(`SigprocFile._type`): `"string"`, `"int"` (4-byte) and `"double"` (8-byte). -/
inductive FieldType
  | string
  | int
  | double
deriving DecidableEq

/-- A header field value.  Strings are raw byte lists (the reader stores the
undecoded bytes it read); a double is represented by its 8-byte IEEE-754
pattern, since `struct.pack "d"` / `struct.unpack "d"` are mutually inverse
byte-level codecs and the header code never computes with these values. -/
inductive HVal
  | str (b : List Nat)
  | int (z : Int)
  | dbl (b : List Nat)
deriving DecidableEq

/-- The attribute state of a `SigprocFile` object restricted to the header
fields: a partial map from field name (as bytes) to value.  `__init__`
initialises every field to `None`, modelled by `emptyHeader`. -/
def Header := List Nat → Option HVal

/-- All fields `None`, as set by the loop at the top of
`SigprocFile.__init__`. -/
def emptyHeader : Header := fun _ => none

/-- `setattr(self, k, v)` on a header field. -/
def updateH (h : Header) (k : List Nat) (v : Option HVal) : Header :=
  fun k2 => if k2 = k then v else h k2

/-- The fixed, ordered field table `SigprocFile._type`. -/
def fieldTable : List (List Nat × FieldType) :=
  [ (asciiBytes "rawdatafile", .string), (asciiBytes "source_name", .string),
    (asciiBytes "machine_id", .int), (asciiBytes "barycentric", .int),
    (asciiBytes "pulsarcentric", .int), (asciiBytes "telescope_id", .int),
    (asciiBytes "src_raj", .double), (asciiBytes "src_dej", .double),
    (asciiBytes "az_start", .double), (asciiBytes "za_start", .double),
    (asciiBytes "data_type", .int), (asciiBytes "fch1", .double),
    (asciiBytes "foff", .double), (asciiBytes "nchans", .int),
    (asciiBytes "nbeams", .int), (asciiBytes "ibeam", .int),
    (asciiBytes "nbits", .int), (asciiBytes "tstart", .double),
    (asciiBytes "tsamp", .double), (asciiBytes "nifs", .int) ]

/-- Lookup `self._type[name]`; `none` models the `KeyError` for an unknown
field name. -/
def lookupType (n : List Nat) : Option FieldType :=
  (fieldTable.find? (fun p => p.1 == n)).map Prod.snd

/-- `struct.pack "i"` — 4 little-endian bytes, two's complement (native
x86-64 layout used by the format). -/
def int32LE (z : Int) : List Nat :=
  let u := (z % 4294967296).toNat
  [u % 256, u / 256 % 256, u / 65536 % 256, u / 16777216 % 256]

/-- `struct.unpack "i"` on (at least) 4 bytes, little-endian signed. -/
def int32FromLE (l : List Nat) : Int :=
  let u := l.getD 0 0 + 256 * l.getD 1 0 + 65536 * l.getD 2 0
      + 16777216 * l.getD 3 0
  if u < 2147483648 then (u : Int) else (u : Int) - 4294967296

/-- Model of `SigprocFile.get_string`: read a 4-byte little-endian length
prefix, then that many bytes.  A declared length outside `[1, 80]` yields no
value and a *reported* consumed-byte count of `0`, although the stream has
already advanced past the 4-byte prefix (this is exactly what the source
returns: `return None, 0`).  A stream shorter than 4 bytes makes
`struct.unpack` raise (`none`).  `fp.read(nchar)` may return fewer bytes at
end of file; the reported count is `nchar + 4` regardless, as in the source.
Returns `(value, reported consumed bytes, rest of stream)`. -/
def get_string (s : List Nat) : Option (Option (List Nat) × Nat × List Nat) :=
  if s.length < 4 then none
  else
    let nchar := int32FromLE (s.take 4)
    let rest4 := s.drop 4
    if nchar > 80 ∨ nchar < 1 then some (none, 0, rest4)
    else
      let n := nchar.toNat
      some (some (rest4.take n), n + 4, rest4.drop n)

/-- Result of `SigprocFile.read_header`: either the final attribute state and
`hdrbytes`, or the silent early `return None` when the `HEADER_START`
sentinel is missing (`noStart`, with `hdrbytes = 0` and no field set), or a
propagating Python exception (`err`: `struct.error` on a short read,
`AttributeError` from `None.decode()`, `KeyError`/`UnicodeDecodeError` on an
unknown name). -/
inductive ReadResult
  | ok (h : Header) (hdrbytes : Nat)
  | noStart
  | err

/-- The field loop of `SigprocFile.read_header`, fuel-indexed (each
iteration consumes at least 4 bytes of the stream, so fuel
`stream length + 1` always suffices; fuel exhaustion is unreachable from
`read_header`). -/
def readFields : Nat → Header → Nat → List Nat → ReadResult
  | 0, _, _, _ => .err
  | fuel + 1, h, acc, s =>
    match get_string s with
    | none => .err
    | some (vname, n, rest) =>
      match vname with
      | none => .err
      | some nameB =>
        if nameB = asciiBytes "HEADER_END" then .ok h (acc + n)
        else
          match lookupType nameB with
          | none => .err
          | some .string =>
            match get_string rest with
            | none => .err
            | some (v, n2, rest2) =>
              readFields fuel (updateH h nameB (v.map HVal.str)) (acc + n + n2) rest2
          | some .int =>
            if rest.length < 4 then .err
            else
              readFields fuel
                (updateH h nameB (some (.int (int32FromLE (rest.take 4)))))
                (acc + n + 4) (rest.drop 4)
          | some .double =>
            if rest.length < 8 then .err
            else
              readFields fuel (updateH h nameB (some (.dbl (rest.take 8))))
                (acc + n + 8) (rest.drop 8)

/-- Model of `SigprocFile.read_header`: read the first length-prefixed
string; unless it equals `HEADER_START`, reset `hdrbytes` to 0 and return
`None` (no exception, no field assigned).  Otherwise run the field loop. -/
def read_header (s : List Nat) : ReadResult :=
  match get_string s with
  | none => .err
  | some (v, n, rest) =>
    if v = some (asciiBytes "HEADER_START") then
      readFields (rest.length + 1) emptyHeader n rest
    else .noStart

/-- Model of `SigprocFile.send_string`: 4-byte little-endian length prefix
followed by the (UTF-8) bytes. -/
def send_string (b : List Nat) : List Nat := int32LE (b.length : Int) ++ b

/-- Model of `SigprocFile.send` for one field-table entry: absent (`None`)
fields emit nothing; a string field emits its name and value as
length-prefixed strings; a numeric field emits its name then the fixed-width
binary value.  A value whose runtime type differs from the declared one
raises in Python; that case is unreachable under `ValidHeader` and emits
nothing here. -/
def send (h : Header) (p : List Nat × FieldType) : List Nat :=
  match h p.1 with
  | none => []
  | some v =>
    match p.2, v with
    | .string, .str b => send_string p.1 ++ send_string b
    | .int, .int z => send_string p.1 ++ int32LE z
    | .double, .dbl b => send_string p.1 ++ b
    | _, _ => []

/-- Model of `SigprocFile.filterbank_header`: `HEADER_START`, each present
field in canonical table order, `HEADER_END`. -/
def filterbank_header (h : Header) : List Nat :=
  send_string (asciiBytes "HEADER_START")
    ++ (fieldTable.map (send h)).flatten
    ++ send_string (asciiBytes "HEADER_END")

/-- Declared-type check for one optional field value: strings have an
encoded byte length in `[1, 80]`, ints fit `struct.pack "i"`, doubles are
8 bytes. -/
def typeOkB : FieldType → Option HVal → Bool
  | _, none => true
  | .string, some (.str b) => 1 ≤ b.length && b.length ≤ 80
  | .int, some (.int z) => -2147483648 ≤ z && z < 2147483648
  | .double, some (.dbl b) => b.length = 8
  | _, some _ => false

/-- A header whose present fields all have values of their declared types
(with string byte lengths in `[1, 80]`). -/
def ValidHeader (h : Header) : Prop :=
  ∀ p ∈ fieldTable, typeOkB p.2 (h p.1) = true

/-- Folding the present fields of `g` (in list order) into `h0`, the header
state `read_header` builds while walking an encoded stream. -/
def updAll (h0 : Header) (fs : List (List Nat × FieldType)) (g : Header) : Header :=
  fs.foldl (fun acc p =>
    match g p.1 with
    | none => acc
    | some v => updateH acc p.1 (some v)) h0

/-- The encoded bytes of the fields `fs` of header `h`, in order. -/
def encFields (h : Header) (fs : List (List Nat × FieldType)) : List Nat :=
  (fs.map (send h)).flatten

/-- State of a `SigprocFile` object after `__init__`: whether the file was
actually opened (path exists and is non-empty), the header attribute state,
`hdrbytes`, and the memory-mapped contents. -/
structure SigprocFile where
  opened : Bool
  header : Header
  hdrbytes : Nat
  content : List Nat

/-- Outcome of `SigprocFile.__init__`: a constructed object, or a Python
exception propagating out of `read_header`. -/
inductive InitResult
  | ok (f : SigprocFile)
  | exn

/-- Model of `SigprocFile.__init__`: when the path names an existing,
non-empty file, open it, run `read_header` and map the contents; a missing
`HEADER_START` sentinel is silently ignored (the object keeps its all-`None`
fields and `hdrbytes = 0`).  Otherwise do nothing at all: no exception is
raised, the object simply has no file handle, no mapping and all-`None`
fields. -/
def initFile (isfile : Bool) (content : List Nat) : InitResult :=
  if isfile ∧ content.length ≠ 0 then
    match read_header content with
    | .err => .exn
    | .noStart => .ok ⟨true, emptyHeader, 0, content⟩
    | .ok h n => .ok ⟨true, h, n, content⟩
  else .ok ⟨false, emptyHeader, 0, []⟩

/-- Model of the input-file existence loop at the top of `dada_fildb`:
raise `OSError` (the error value carries the offending path) at the first
path that is not a file.  A zero-length existing file passes this check. -/
def fileCheck (files : List String) (isfile : String → Bool) : Except String Unit :=
  match files with
  | [] => .ok ()
  | f :: rest => if isfile f then fileCheck rest isfile else .error f

/-- A Python 3 number: an `int` or a `float`.  Floats are modelled by exact
rationals; all float computations relied on by the theorems below are exact
in IEEE binary64. -/
inductive PyNum
  | pint (z : Int)
  | pfloat (q : ℚ)
deriving DecidableEq

/-- Numeric value of a Python number. -/
def PyNum.toQ : PyNum → ℚ
  | .pint z => (z : ℚ)
  | .pfloat q => q

/-- Python `*`: int with int stays int, anything with a float is a float. -/
def pyMul : PyNum → PyNum → PyNum
  | .pint a, .pint b => .pint (a * b)
  | a, b => .pfloat (a.toQ * b.toQ)

/-- Python `+`: int with int stays int, anything with a float is a float. -/
def pyAdd : PyNum → PyNum → PyNum
  | .pint a, .pint b => .pint (a + b)
  | a, b => .pfloat (a.toQ + b.toQ)

/-- Python `-`: int with int stays int, anything with a float is a float. -/
def pySub : PyNum → PyNum → PyNum
  | .pint a, .pint b => .pint (a - b)
  | a, b => .pfloat (a.toQ - b.toQ)

/-- Python 3 true division `/`: the result is *always* a float.  Division by
zero raises `ZeroDivisionError` in Python; the model is total and every
theorem that uses it assumes a nonzero divisor. -/
def pyDiv (a b : PyNum) : PyNum := .pfloat (a.toQ / b.toQ)

/-- Python `int(x)`: truncation toward zero for floats. -/
def pyInt : PyNum → Int
  | .pint z => z
  | .pfloat q => if 0 ≤ q then ⌊q⌋ else ⌈q⌉

/-- The header-derived state a `SigprocFile` data access uses: `nbits`,
`nchans`, `nifs`, `hdrbytes` and the mapped file bytes (`_mmdata`, whose
`size()` is the whole file length). -/
structure SigData where
  nbits : Int
  nchans : Int
  nifs : Int
  hdrbytes : Int
  content : List Nat

/-- Model of the property `SigprocFile.bytes_per_spectrum`
(`nbits * nchans * nifs / 8`): under Python 3 true division the result is
always a float. -/
def bytes_per_spectrum (f : SigData) : PyNum :=
  pyDiv (pyMul (pyMul (.pint f.nbits) (.pint f.nchans)) (.pint f.nifs)) (.pint 8)

/-- Model of `SigprocFile.nspectra`
(`(self._mmdata.size() - self.hdrbytes) / self.bytes_per_spectrum`): a
Python 3 float, with no rounding of any kind. -/
def nspectra (f : SigData) : PyNum :=
  pyDiv (pySub (.pint (f.content.length : Int)) (.pint f.hdrbytes))
    (bytes_per_spectrum f)

/-- Model of `mmap` slicing `self._mmdata[a:b]`: slice indices must be
integers — a float index raises
`TypeError: slice indices must be integers ...` (`none`).  Negative index
wrap-around is irrelevant for the nonnegative offsets used here. -/
def mmapSlice (content : List Nat) : PyNum → PyNum → Option (List Nat)
  | .pint a, .pint b => some ((content.take b.toNat).drop a.toNat)
  | _, _ => none

/-- The NumPy dtype chosen by the property `SigprocFile.dtype`; `none`
models the `RuntimeError("nbits=%d not supported")`. -/
inductive Dtype
  | uint8
  | uint16
  | float32
deriving DecidableEq

/-- Model of the property `SigprocFile.dtype`. -/
def dtypeOf (f : SigData) : Option Dtype :=
  if f.nbits = 8 then some .uint8
  else if f.nbits = 16 then some .uint16
  else if f.nbits = 32 then some .float32
  else none

/-- Bytes per sample of a dtype. -/
def itemsize : Dtype → Nat
  | .uint8 => 1
  | .uint16 => 2
  | .float32 => 4

/-- Model of `SigprocFile.get_data`: slice the mapped bytes with integer
byte offsets (the source applies `int(...)` to the float offsets here),
reinterpret as samples of `dtype` and reshape to
`(records, nifs, nchans)` — `np.frombuffer`/`reshape` raise unless the byte
count divides evenly (`none`) — then keep subband 0.  A sample is
represented by its raw little-endian byte group, which determines its value
for every dtype; `astype(np.float32)` in `unpack` is a value-preserving
widening of these samples. -/
def get_data (f : SigData) (nstart nsamp : Int) : Option (List (List (List Nat))) :=
  match dtypeOf f with
  | none => none
  | some dt =>
    let isz := itemsize dt
    let bps := bytes_per_spectrum f
    let b0 := pyInt (pyAdd (.pint f.hdrbytes) (pyMul (.pint nstart) bps))
    let b1 := pyInt (pyAdd (pyAdd (.pint f.hdrbytes) (pyMul (.pint nstart) bps))
        (pyMul (.pint nsamp) bps))
    let raw := (f.content.take b1.toNat).drop b0.toNat
    let per := isz * (f.nifs.toNat * f.nchans.toNat)
    if per = 0 ∨ raw.length % per ≠ 0 then none
    else
      some ((List.range (raw.length / per)).map (fun r =>
        (List.range f.nchans.toNat).map (fun c =>
          (raw.drop (r * per + c * isz)).take isz)))

/-- Model of `SigprocFile.unpack`.  For `nbits >= 8` it is `get_data`
widened to 32-bit float (value-preserving).  For sub-byte widths the source
computes `bstart = int(nstart) * self.bytes_per_spectrum`, a Python 3
*float*, so the very first data access `self._mmdata[b0:b1]` raises
`TypeError` — and were the offsets integral, the reshape dimension
`self.nchans / fac` and `range(fac)` with `fac = 8 / self.nbits` are floats
and raise `TypeError` as well.  The mask/shift unpacking loop is therefore
unreachable. -/
def unpack (f : SigData) (nstart nsamp : Int) : Option (List (List (List Nat))) :=
  if 8 ≤ f.nbits then get_data f nstart nsamp
  else
    let bstart := pyMul (.pint nstart) (bytes_per_spectrum f)
    let b0 := pyAdd (.pint f.hdrbytes) bstart
    let b1 := pyAdd b0 (pyMul (.pint nsamp) (bytes_per_spectrum f))
    match mmapSlice f.content b0 b1 with
    | none => none
    | some _ => none

/-- A NumPy two-dimensional float block with explicit shape; entries outside
the shape are irrelevant. -/
structure NpMat where
  rows : Nat
  cols : Nat
  entry : Nat → Nat → ℚ

/-- `np.zeros((r, c))`. -/
def zerosM (r c : Nat) : NpMat := ⟨r, c, fun _ _ => 0⟩

/-- `np.transpose` of a two-dimensional block. -/
def transposeM (m : NpMat) : NpMat := ⟨m.cols, m.rows, fun i j => m.entry j i⟩

/-- `m[::-1]`: reverse the leading axis. -/
def flipRows (m : NpMat) : NpMat :=
  ⟨m.rows, m.cols, fun i j => m.entry (m.rows - 1 - i) j⟩

/-- NumPy assignment `target[...] = src` with broadcasting: each source axis
must equal the target axis or be 1 (otherwise `ValueError`, `none`); a
source axis of 1 is replicated across the target axis. -/
def assignFull (t s : NpMat) : Option NpMat :=
  if (s.rows = t.rows ∨ s.rows = 1) ∧ (s.cols = t.cols ∨ s.cols = 1) then
    some ⟨t.rows, t.cols, fun i j =>
      s.entry (if s.rows = 1 then 0 else i) (if s.cols = 1 then 0 else j)⟩
  else none

/-- Abstract per-beam filterbank reader view for the page assembler:
`SigprocFile.get_data(start, count)` on an 8-bit, `nifs = 1` file whose data
region holds `nrec` whole records returns the records
`[start, start + count)` clamped at end of file, as a
`(records, channels)` block. -/
structure FilV where
  nchans : Nat
  nrec : Nat
  val : Nat → Nat → ℚ

/-- The block `f.get_data(start, count)` of a per-beam file: `min count
(nrec - start)` rows of `nchans` channels. -/
def readBlock (f : FilV) (start count : Nat) : NpMat :=
  ⟨min count (f.nrec - start), f.nchans, fun t c => f.val (start + t) c⟩

/-- Model of the per-beam body of `dada_fildb.get_data`; the Python `order`
string is modelled as its character sequence.  Transpose when
`order.upper() == 'FT'`; reverse the leading axis when the order string
contains the character `'F'` (this member test is case-sensitive: it is the
*uppercase* letter); then assign into a zero block of shape
`(nchans of the first file, pagesize)` with NumPy broadcasting.  On a shape
mismatch (`ValueError`) retry on the column slice `[:, :nsamp]` with
`nsamp = fil_data.shape[1]`, leaving the remaining columns zero; a second
mismatch propagates (`none`). -/
def processBeam (nch pagesize : Nat) (order : List Char) (fd0 : NpMat) : Option NpMat :=
  let fd1 := if order.map Char.toUpper = ['F', 'T'] then transposeM fd0 else fd0
  let fd := if order.contains 'F' then flipRows fd1 else fd1
  match assignFull (zerosM nch pagesize) fd with
  | some m => some m
  | none =>
    let w := min fd.cols pagesize
    match assignFull (zerosM nch w) fd with
    | some sub => some ⟨nch, pagesize, fun i j => if j < w then sub.entry i j else 0⟩
    | none => none

/-- The per-beam iteration of the `for i, f in enumerate(filterbanks)` loop:
process each beam in order, stopping at the first uncaught exception
(`none`), as the propagating `ValueError` would. -/
def mapOpt (g : FilV → Option NpMat) : List FilV → Option (List NpMat)
  | [] => some []
  | a :: l =>
    match g a, mapOpt g l with
    | some M, some ms => some (M :: ms)
    | _, _ => none

/-- Model of `dada_fildb.get_data`: one processed block per beam, each read
at records `[page * pagesize, page * pagesize + pagesize)`; all target
blocks use the *first* file's `nchans`.  An empty file list raises
`IndexError` at `filterbanks[0]` (`none`). -/
def get_data_page (files : List FilV) (page pagesize : Nat) (order : List Char) :
    Option (List NpMat) :=
  match files with
  | [] => none
  | f0 :: _ =>
    mapOpt (fun f =>
      processBeam f0.nchans pagesize order (readBlock f (page * pagesize) pagesize)) files

/-- Modelled from the spec (claim C2's reading of §4.3, for comparison with
the source's `processBeam`): transpose iff the order code equals `"FT"`
case-insensitively, and reverse the channel axis iff the code contains the
*lowercase* character `'f'`. -/
def claimedBeam (nch pagesize : Nat) (order : List Char) (fd0 : NpMat) : Option NpMat :=
  let fd1 := if order.map Char.toUpper = ['F', 'T'] then transposeM fd0 else fd0
  let fd := if order.contains 'f' then flipRows fd1 else fd1
  match assignFull (zerosM nch pagesize) fd with
  | some m => some m
  | none =>
    let w := min fd.cols pagesize
    match assignFull (zerosM nch w) fd with
    | some sub => some ⟨nch, pagesize, fun i j => if j < w then sub.entry i j else 0⟩
    | none => none

/-- An event of the ring-buffer write loop in `dada_fildb`: a page written
into the next buffer slot, or the `markEndOfData` signal. -/
inductive Event
  | push (page : Nat)
  | eod
deriving DecidableEq

/-- Model of the write loop of `dada_fildb`, fuel-indexed: each iteration of
`for buffer in writer` writes the page `page`, increments the counter, and
calls `markEndOfData` when the counter reaches `npage`, which stops the
iteration.  `some trace` means the loop terminated within `fuel`
iterations; `none` means it did not (for `npage = 0` the counter can never
reach `npage`, so no fuel suffices). -/
def writerLoop : Nat → Nat → Nat → Option (List Event)
  | 0, _, _ => none
  | fuel + 1, npage, page =>
    if page + 1 = npage then some [Event.push page, Event.eod]
    else (writerLoop fuel npage (page + 1)).map (fun t => Event.push page :: t)

/-- Model of `npage = int(np.ceil(filterbanks[0].nspectra() / pagesize))`. -/
def npageOf (nsp : PyNum) (pagesize : Int) : Int :=
  pyInt (.pfloat (⌈(pyDiv nsp (.pint pagesize)).toQ⌉ : ℚ))

/-! ### Helper lemmas for the header codec -/

theorem int32LE_length (z : Int) : (int32LE z).length = 4 := rfl

theorem int32_roundtrip (z : Int) (h1 : -2147483648 ≤ z) (h2 : z < 2147483648) :
    int32FromLE (int32LE z) = z := by
  unfold int32LE int32FromLE
  simp only [List.getD_cons_zero, List.getD_cons_succ]
  omega

theorem get_string_enc (b t : List Nat) (h1 : 1 ≤ b.length) (h2 : b.length ≤ 80) :
    get_string (send_string b ++ t) = some (some b, b.length + 4, t) := by
  unfold send_string get_string
  rw [List.append_assoc]
  have hlen : (int32LE (b.length : Int) ++ (b ++ t)).length = 4 + (b.length + t.length) := by
    simp [int32LE_length]
  have htake : (int32LE (b.length : Int) ++ (b ++ t)).take 4 = int32LE (b.length : Int) :=
    List.take_left' (int32LE_length _)
  have hdrop : (int32LE (b.length : Int) ++ (b ++ t)).drop 4 = b ++ t :=
    List.drop_left' (int32LE_length _)
  have hrt : int32FromLE (int32LE (b.length : Int)) = (b.length : Int) :=
    int32_roundtrip _ (by omega) (by omega)
  rw [if_neg (by omega), htake, hrt, if_neg (by omega), hdrop]
  simp [List.take_left' rfl, List.drop_left' rfl]

theorem lookupType_name_ok (n : List Nat) (ty : FieldType) (h : lookupType n = some ty) :
    (1 ≤ n.length ∧ n.length ≤ 80) ∧ n ≠ asciiBytes "HEADER_END" := by
  unfold lookupType at h
  cases hf : fieldTable.find? (fun p => p.1 == n) with
  | none => rw [hf] at h; exact absurd h (by simp)
  | some q =>
    have hq : q ∈ fieldTable := List.mem_of_find?_eq_some hf
    have he : q.1 = n := by
      have := List.find?_some hf
      simpa using this
    have hall : ∀ x ∈ fieldTable,
        ((1 ≤ x.1.length ∧ x.1.length ≤ 80) ∧ x.1 ≠ asciiBytes "HEADER_END") := by decide
    rw [← he]
    exact hall q hq

theorem updAll_cons (h0 : Header) (p : List Nat × FieldType)
    (fs : List (List Nat × FieldType)) (g : Header) :
    updAll h0 (p :: fs) g
      = updAll (match g p.1 with
          | none => h0
          | some v => updateH h0 p.1 (some v)) fs g := rfl

theorem updAll_not_mem (fs : List (List Nat × FieldType)) (g h0 : Header) (k : List Nat)
    (hk : k ∉ fs.map Prod.fst) : updAll h0 fs g k = h0 k := by
  induction fs generalizing h0 with
  | nil => rfl
  | cons q fs ih =>
    have hk1 : k ≠ q.1 := by intro he; exact hk (by simp [he])
    have hk2 : k ∉ fs.map Prod.fst := by intro hm; exact hk (by simp [hm])
    rw [updAll_cons]
    cases hg : g q.1 with
    | none => exact ih _ hk2
    | some v =>
      show updAll (updateH h0 q.1 (some v)) fs g k = h0 k
      rw [ih _ hk2]
      unfold updateH
      rw [if_neg hk1]

theorem updAll_mem (fs : List (List Nat × FieldType)) (g h0 : Header)
    (hnd : (fs.map Prod.fst).Nodup) :
    ∀ p ∈ fs, updAll h0 fs g p.1
      = (match g p.1 with
          | none => h0 p.1
          | some v => some v) := by
  induction fs generalizing h0 with
  | nil => intro p hp; exact absurd hp (by simp)
  | cons q fs ih =>
    have hq : q.1 ∉ fs.map Prod.fst := by
      simp only [List.map_cons, List.nodup_cons] at hnd; exact hnd.1
    have hnd2 : (fs.map Prod.fst).Nodup := by
      simp only [List.map_cons, List.nodup_cons] at hnd; exact hnd.2
    intro p hp
    rcases List.mem_cons.mp hp with he | hm
    · subst he
      rw [updAll_cons]
      cases hg : g p.1 with
      | none => exact updAll_not_mem _ _ _ _ hq
      | some v =>
        show updAll (updateH h0 p.1 (some v)) fs g p.1 = some v
        rw [updAll_not_mem _ _ _ _ hq]
        unfold updateH
        rw [if_pos rfl]
    · have hne : p.1 ≠ q.1 := by
        intro he
        exact hq (he ▸ List.mem_map_of_mem Prod.fst hm)
      rw [updAll_cons]
      cases hg : g q.1 with
      | none => exact ih _ hnd2 p hm
      | some v =>
        show updAll (updateH h0 q.1 (some v)) fs g p.1
          = (match g p.1 with
              | none => h0 p.1
              | some v => some v)
        rw [ih _ hnd2 p hm]
        cases g p.1 with
        | none =>
          show updateH h0 q.1 (some v) p.1 = h0 p.1
          unfold updateH
          rw [if_neg hne]
        | some w => rfl

theorem encFields_nil (g : Header) : encFields g [] = [] := rfl

theorem encFields_cons (g : Header) (p : List Nat × FieldType)
    (fs : List (List Nat × FieldType)) :
    encFields g (p :: fs) = send g p ++ encFields g fs := by
  unfold encFields
  simp

/-- Walking the encoding of the fields `fs` of `g` followed by the
`HEADER_END` marker: the loop terminates successfully at the marker, having
applied exactly the updates for the present fields and counted every stream
byte. -/
theorem readFields_enc (g : Header) (fs : List (List Nat × FieldType))
    (hlk : ∀ p ∈ fs, lookupType p.1 = some p.2)
    (hok : ∀ p ∈ fs, typeOkB p.2 (g p.1) = true) :
    ∀ fuel h0 acc,
      (encFields g fs ++ send_string (asciiBytes "HEADER_END")).length < fuel →
      readFields fuel h0 acc (encFields g fs ++ send_string (asciiBytes "HEADER_END"))
        = .ok (updAll h0 fs g) (acc + (encFields g fs).length + 14) := by
  induction fs with
  | nil =>
    intro fuel h0 acc hfuel
    rw [encFields_nil] at hfuel ⊢
    simp only [List.nil_append] at hfuel ⊢
    obtain ⟨m, rfl⟩ : ∃ m, fuel = m + 1 := ⟨fuel - 1, by omega⟩
    have hgs := get_string_enc (asciiBytes "HEADER_END") [] (by decide) (by decide)
    rw [List.append_nil] at hgs
    simp only [readFields, hgs]
    simp [updAll]
    decide
  | cons p fs ih =>
    intro fuel h0 acc hfuel
    rw [encFields_cons] at hfuel ⊢
    cases hg : g p.1 with
    | none =>
      have hsend : send g p = [] := by unfold send; rw [hg]
      rw [hsend] at hfuel ⊢
      simp only [List.nil_append] at hfuel ⊢
      rw [ih (fun q hq => hlk q (List.mem_cons_of_mem p hq))
        (fun q hq => hok q (List.mem_cons_of_mem p hq)) fuel h0 acc hfuel]
      rw [updAll_cons, hg]
    | some v =>
      obtain ⟨⟨hn1, hn2⟩, hne⟩ := lookupType_name_ok p.1 p.2 (hlk p (List.mem_cons_self p _))
      have hokp := hok p (List.mem_cons_self p _)
      rw [hg] at hokp
      have hlkp := hlk p (List.mem_cons_self p _)
      obtain ⟨m, rfl⟩ : ∃ m, fuel = m + 1 := ⟨fuel - 1, by omega⟩
      match hty : p.2, v with
      | .string, .str b =>
        rw [hty] at hokp hlkp
        have hb : 1 ≤ b.length ∧ b.length ≤ 80 := by
          simpa [typeOkB] using hokp
        have hsend : send g p = send_string p.1 ++ send_string b := by
          unfold send; rw [hg, hty]
        have ihr := ih (fun q hq => hlk q (List.mem_cons_of_mem p hq))
          (fun q hq => hok q (List.mem_cons_of_mem p hq)) m
          (updateH h0 p.1 (some (HVal.str b)))
          (acc + (p.1.length + 4) + (b.length + 4))
          (by simp [hsend, send_string, int32LE_length] at hfuel ⊢; omega)
        rw [hsend, List.append_assoc, List.append_assoc]
        simp only [readFields,
          get_string_enc p.1 (send_string b ++ (encFields g fs ++ send_string (asciiBytes "HEADER_END"))) hn1 hn2,
          get_string_enc b (encFields g fs ++ send_string (asciiBytes "HEADER_END")) hb.1 hb.2,
          Option.map_some, Option.map_some', if_neg hne, hlkp]
        rw [ihr]
        congr 1
        · rw [updAll_cons, hg]
        · simp [send_string, int32LE_length]
          omega
      | .int, .int z =>
        rw [hty] at hokp hlkp
        have hz : -2147483648 ≤ z ∧ z < 2147483648 := by
          simpa [typeOkB] using hokp
        have hsend : send g p = send_string p.1 ++ int32LE z := by
          unfold send; rw [hg, hty]
        have ihr := ih (fun q hq => hlk q (List.mem_cons_of_mem p hq))
          (fun q hq => hok q (List.mem_cons_of_mem p hq)) m
          (updateH h0 p.1 (some (HVal.int z)))
          (acc + (p.1.length + 4) + 4)
          (by simp [hsend, send_string, int32LE_length] at hfuel ⊢; omega)
        have hc : ¬((int32LE z ++ (encFields g fs ++ send_string (asciiBytes "HEADER_END"))).length < 4) := by
          simp [int32LE_length]
        rw [hsend, List.append_assoc, List.append_assoc]
        simp only [readFields,
          get_string_enc p.1 (int32LE z ++ (encFields g fs ++ send_string (asciiBytes "HEADER_END"))) hn1 hn2,
          Option.map_some, Option.map_some', if_neg hne, hlkp, if_neg hc,
          List.take_left' (int32LE_length z), List.drop_left' (int32LE_length z),
          int32_roundtrip z hz.1 hz.2]
        rw [ihr]
        congr 1
        · rw [updAll_cons, hg]
        · simp [send_string, int32LE_length]
          omega
      | .double, .dbl b =>
        rw [hty] at hokp hlkp
        have hb : b.length = 8 := by
          simpa [typeOkB] using hokp
        have hsend : send g p = send_string p.1 ++ b := by
          unfold send; rw [hg, hty]
        have ihr := ih (fun q hq => hlk q (List.mem_cons_of_mem p hq))
          (fun q hq => hok q (List.mem_cons_of_mem p hq)) m
          (updateH h0 p.1 (some (HVal.dbl b)))
          (acc + (p.1.length + 4) + 8)
          (by simp [hsend, send_string, int32LE_length, hb] at hfuel ⊢; omega)
        have hc : ¬((b ++ (encFields g fs ++ send_string (asciiBytes "HEADER_END"))).length < 8) := by
          simp [hb]
        rw [hsend, List.append_assoc, List.append_assoc]
        simp only [readFields,
          get_string_enc p.1 (b ++ (encFields g fs ++ send_string (asciiBytes "HEADER_END"))) hn1 hn2,
          Option.map_some, Option.map_some', if_neg hne, hlkp, if_neg hc,
          List.take_left' hb, List.drop_left' hb]
        rw [ihr]
        congr 1
        · rw [updAll_cons, hg]
        · simp [send_string, int32LE_length, hb]
          omega
      | .string, .int _ => rw [hty] at hokp; simp [typeOkB] at hokp
      | .string, .dbl _ => rw [hty] at hokp; simp [typeOkB] at hokp
      | .int, .str _ => rw [hty] at hokp; simp [typeOkB] at hokp
      | .int, .dbl _ => rw [hty] at hokp; simp [typeOkB] at hokp
      | .double, .str _ => rw [hty] at hokp; simp [typeOkB] at hokp
      | .double, .int _ => rw [hty] at hokp; simp [typeOkB] at hokp

/-- Decoding the full encoding of a valid header succeeds and yields exactly
the present-field updates applied to the all-`None` initial state. -/
theorem read_header_enc (h : Header) (hv : ValidHeader h) :
    read_header (filterbank_header h)
      = .ok (updAll emptyHeader fieldTable h)
          ((asciiBytes "HEADER_START").length + 4 + (encFields h fieldTable).length + 14) := by
  have hfb : filterbank_header h
      = send_string (asciiBytes "HEADER_START")
        ++ (encFields h fieldTable ++ send_string (asciiBytes "HEADER_END")) := rfl
  have hstart := get_string_enc (asciiBytes "HEADER_START")
    (encFields h fieldTable ++ send_string (asciiBytes "HEADER_END")) (by decide) (by decide)
  have hbody := readFields_enc h fieldTable (by decide) hv
    ((encFields h fieldTable ++ send_string (asciiBytes "HEADER_END")).length + 1)
    emptyHeader ((asciiBytes "HEADER_START").length + 4)
    (by omega)
  rw [hfb]
  simp only [read_header, hstart]
  rw [if_pos trivial]
  exact hbody

theorem get_string_some_len (s : List Nat) (r : Option (List Nat) × Nat × List Nat)
    (hg : get_string s = some r) : 4 ≤ s.length := by
  unfold get_string at hg
  by_cases h4 : s.length < 4
  · rw [if_pos h4] at hg
    cases hg
  · omega

/-- C1: for every header built from the fixed field table with valid values
(strings of encoded byte length in `[1, 80]`, `int32`-range integers,
8-byte doubles), decoding the encoded stream succeeds and yields a header
equal to the original in all present fields (string values are the exact
bytes, numeric values are bit-exact at their declared width). -/
theorem c1_header_roundtrip (h : Header) (hv : ValidHeader h) :
    ∃ hd n, read_header (filterbank_header h) = .ok hd n ∧
      ∀ p ∈ fieldTable, hd p.1 = h p.1 := by
  refine ⟨updAll emptyHeader fieldTable h, _, read_header_enc h hv, ?_⟩
  intro p hp
  rw [updAll_mem fieldTable h emptyHeader (by decide) p hp]
  cases hh : h p.1 with
  | none => rfl
  | some v => rfl

/-- Concrete example header used by the C1 witness: two strings, two ints
and a double (the 8 bytes are an arbitrary IEEE-754 pattern). -/
def hdrEx : Header := fun k =>
  if k = asciiBytes "source_name" then some (.str (asciiBytes "FAKE"))
  else if k = asciiBytes "rawdatafile" then some (.str (asciiBytes "b.fil"))
  else if k = asciiBytes "machine_id" then some (.int 15)
  else if k = asciiBytes "nchans" then some (.int 384)
  else if k = asciiBytes "tsamp" then some (.dbl [252, 169, 241, 210, 77, 98, 80, 63])
  else none

/-- Witness for C1 at the concrete header `hdrEx`. -/
theorem c1_header_roundtrip_witness :
    ValidHeader hdrEx ∧
      ∃ hd n, read_header (filterbank_header hdrEx) = .ok hd n ∧
        ∀ p ∈ fieldTable, hd p.1 = hdrEx p.1 :=
  ⟨by unfold ValidHeader; decide, c1_header_roundtrip hdrEx (by unfold ValidHeader; decide)⟩

/-- C10: after decoding an encoded valid header, every absent field is still
`None` (the all-`None` initialisation of `__init__` is never overwritten for
fields that do not appear in the stream), and every string field holds
exactly the raw bytes that were in the stream (`get_string` returns
`fp.read(nchar)` without decoding, and `read_header` stores that bytes
object unchanged). -/
theorem c10_raw_bytes_absent_none (h : Header) (hv : ValidHeader h) :
    ∃ hd n, read_header (filterbank_header h) = .ok hd n ∧
      (∀ p ∈ fieldTable, h p.1 = none → hd p.1 = none) ∧
      (∀ p ∈ fieldTable, ∀ b, h p.1 = some (.str b) → hd p.1 = some (.str b)) := by
  refine ⟨updAll emptyHeader fieldTable h, _, read_header_enc h hv, ?_, ?_⟩
  · intro p hp hn
    rw [updAll_mem fieldTable h emptyHeader (by decide) p hp, hn]
    rfl
  · intro p hp b hb
    rw [updAll_mem fieldTable h emptyHeader (by decide) p hp, hb]

/-- Concrete example header used by the C10 witness. -/
def hdrEx2 : Header := fun k =>
  if k = asciiBytes "rawdatafile" then some (.str (asciiBytes "x"))
  else if k = asciiBytes "nifs" then some (.int 1)
  else none

/-- Witness for C10 at the concrete header `hdrEx2`. -/
theorem c10_raw_bytes_absent_none_witness :
    ValidHeader hdrEx2 ∧
      ∃ hd n, read_header (filterbank_header hdrEx2) = .ok hd n ∧
        (∀ p ∈ fieldTable, hdrEx2 p.1 = none → hd p.1 = none) ∧
        (∀ p ∈ fieldTable, ∀ b, hdrEx2 p.1 = some (.str b) → hd p.1 = some (.str b)) :=
  ⟨by unfold ValidHeader; decide, c10_raw_bytes_absent_none hdrEx2 (by unfold ValidHeader; decide)⟩

/-- C7 (amended): when the first length-prefixed string of the stream is not
`HEADER_START`, `read_header` silently returns `None` with `hdrbytes = 0`
and no field assigned — it raises no exception — and `__init__` carries on,
producing an object with an empty header over the mapped file. -/
theorem c7_missing_sentinel_silent (s : List Nat) (v : Option (List Nat)) (n : Nat)
    (rest : List Nat) (hg : get_string s = some (v, n, rest))
    (hv : v ≠ some (asciiBytes "HEADER_START")) :
    read_header s = .noStart ∧
      initFile true s = .ok ⟨true, emptyHeader, 0, s⟩ := by
  have hlen : 4 ≤ s.length := get_string_some_len s _ hg
  have hrh : read_header s = .noStart := by
    simp only [read_header, hg]
    rw [if_neg hv]
  refine ⟨hrh, ?_⟩
  unfold initFile
  rw [if_pos ⟨rfl, by omega⟩, hrh]

/-- Witness for C7 at the concrete stream `[1, 0, 0, 0, 65]` (a
length-prefixed `"A"`). -/
theorem c7_missing_sentinel_silent_witness :
    get_string [1, 0, 0, 0, 65] = some (some [65], 5, []) ∧
      (read_header [1, 0, 0, 0, 65] = .noStart ∧
        initFile true [1, 0, 0, 0, 65] = .ok ⟨true, emptyHeader, 0, [1, 0, 0, 0, 65]⟩) :=
  ⟨by decide, c7_missing_sentinel_silent [1, 0, 0, 0, 65] (some [65]) 5 []
    (by decide) (by decide)⟩

/-- Counterexample to C7 as stated: on the stream `[1, 0, 0, 0, 65]` (first
string `"A"`, not `HEADER_START`) the decoder does *not* fail with an
error: `read_header` returns the silent `noStart` outcome, distinct from the
exception outcome `err`, and `__init__` proceeds to construct the object
with an empty header — the caller observes no failure. -/
theorem c7_counterexample :
    read_header [1, 0, 0, 0, 65] = .noStart ∧
      initFile true [1, 0, 0, 0, 65] = .ok ⟨true, emptyHeader, 0, [1, 0, 0, 0, 65]⟩ ∧
      ReadResult.noStart ≠ ReadResult.err :=
  ⟨rfl, rfl, fun hcon => ReadResult.noConfusion hcon⟩

/-- C8 (amended): a length-prefixed string in *value* position whose
declared length is outside `[1, 80]` raises no error and the field is set
to `None` (absent), but the byte count reported as consumed is `0` — not
the 4-byte length prefix — although the stream has advanced past those 4
bytes, so `hdrbytes` undercounts by 4.  (In *name* position the `None`
result would instead raise `AttributeError` at `s.decode()`.) -/
theorem c8_bad_length_absent_zero_consumed (s : List Nat) (h4 : ¬(s.length < 4))
    (hbad : int32FromLE (s.take 4) > 80 ∨ int32FromLE (s.take 4) < 1)
    (nameB : List Nat) (hname : lookupType nameB = some .string)
    (fuel : Nat) (h0 : Header) (acc : Nat) :
    get_string s = some (none, 0, s.drop 4) ∧
      readFields (fuel + 1) h0 acc (send_string nameB ++ s)
        = readFields fuel (updateH h0 nameB none) (acc + (nameB.length + 4) + 0)
            (s.drop 4) := by
  obtain ⟨⟨hn1, hn2⟩, hne⟩ := lookupType_name_ok nameB .string hname
  have hgs : get_string s = some (none, 0, s.drop 4) := by
    unfold get_string
    rw [if_neg h4, if_pos hbad]
  refine ⟨hgs, ?_⟩
  simp only [readFields, get_string_enc nameB s hn1 hn2, Option.map_some, Option.map_some',
    Option.map_none, Option.map_none', if_neg hne, hname, hgs]

/-- Witness for C8: name `source_name`, value stream `[0, 0, 0, 0]`
(declared length 0). -/
theorem c8_bad_length_witness :
    (¬(([0, 0, 0, 0] : List Nat).length < 4)) ∧
      (int32FromLE (([0, 0, 0, 0] : List Nat).take 4) > 80
        ∨ int32FromLE (([0, 0, 0, 0] : List Nat).take 4) < 1) ∧
      lookupType (asciiBytes "source_name") = some .string ∧
      (get_string [0, 0, 0, 0] = some (none, 0, List.drop 4 [0, 0, 0, 0]) ∧
        readFields (0 + 1) emptyHeader 0 (send_string (asciiBytes "source_name") ++ [0, 0, 0, 0])
          = readFields 0 (updateH emptyHeader (asciiBytes "source_name") none)
              (0 + ((asciiBytes "source_name").length + 4) + 0) (List.drop 4 [0, 0, 0, 0])) :=
  ⟨by decide, by decide, by decide,
    c8_bad_length_absent_zero_consumed [0, 0, 0, 0] (by decide) (by decide)
      (asciiBytes "source_name") (by decide) 0 emptyHeader 0⟩

/-- Counterexample to C8 as stated: for the stream `[0, 0, 0, 0]` (declared
string length 0), `get_string` reports `0` consumed bytes, not the 4-byte
length prefix the claim requires. -/
theorem c8_counterexample :
    get_string [0, 0, 0, 0] = some (none, 0, []) ∧ (0 : Nat) ≠ 4 :=
  ⟨by decide, by decide⟩

/-- C9 (amended): a path that is not a file makes the run entry point
`dada_fildb` raise `OSError` in its pre-check, before any header work; but
a *zero-length* existing file raises nothing anywhere: the pre-check passes
and `SigprocFile.__init__` silently skips opening (no header decode, no
mapping — `opened = false`).  A missing path likewise raises nothing inside
`SigprocFile.__init__` itself. -/
theorem c9_missing_raises_empty_silent (files : List String) (isfile : String → Bool)
    (f : String) (hmem : f ∈ files) (hmiss : isfile f = false) :
    (∃ g, fileCheck files isfile = .error g ∧ isfile g = false) ∧
      initFile true [] = .ok ⟨false, emptyHeader, 0, []⟩ ∧
      initFile false [1, 0, 0, 0] = .ok ⟨false, emptyHeader, 0, []⟩ := by
  refine ⟨?_, rfl, rfl⟩
  induction files with
  | nil => cases hmem
  | cons a rest ih =>
    unfold fileCheck
    by_cases ha : isfile a = true
    · rw [if_pos ha]
      rcases List.mem_cons.mp hmem with he | hm
      · rw [← he, hmiss] at ha
        cases ha
      · exact ih hm
    · rw [if_neg ha]
      exact ⟨a, rfl, by simpa using ha⟩

/-- Witness for C9: missing path `"b"`. -/
theorem c9_missing_raises_empty_silent_witness :
    ("b" ∈ ["b"]) ∧
      ((∃ g, fileCheck ["b"] (fun _ => false) = .error g ∧ (fun _ => false) g = false) ∧
        initFile true [] = .ok ⟨false, emptyHeader, 0, []⟩ ∧
        initFile false [1, 0, 0, 0] = .ok ⟨false, emptyHeader, 0, []⟩) :=
  ⟨by simp, c9_missing_raises_empty_silent ["b"] (fun _ => false) "b" (by simp) rfl⟩

/-- Counterexample to C9 as stated: for an existing but zero-length file at
path `"a"`, no `FileNotFound` failure occurs anywhere — the `dada_fildb`
pre-check passes (it only tests existence) and `SigprocFile.__init__`
returns a silently-unopened object instead of failing. -/
theorem c9_counterexample :
    fileCheck ["a"] (fun _ => true) = .ok () ∧
      initFile true [] = .ok ⟨false, emptyHeader, 0, []⟩ :=
  ⟨rfl, rfl⟩

/-- C3 (code bug): for every sub-byte sample width the source's `unpack`
raises `TypeError` before any unpacking happens, because under Python 3
`bytes_per_spectrum = nbits * nchans * nifs / 8` is a *float* (true
division), so the byte offsets `b0`, `b1` are floats and
`self._mmdata[b0:b1]` rejects them — the mask/shift loop described by the
claim is unreachable.  Evaluated here at the failing input `nbits = 4`,
`nchans = 2`, `nifs = 1`, one packed byte, `unpack(0, 1)`: the call fails
(`none`), and `bytes_per_spectrum` is indeed the float `1.0`, not the
integer 1. -/
theorem c3_unpack_subbyte_typeerror :
    unpack ⟨4, 2, 1, 0, [171]⟩ 0 1 = none ∧
      bytes_per_spectrum ⟨4, 2, 1, 0, [171]⟩ = .pfloat 1 := by
  constructor
  · rfl
  · norm_num [bytes_per_spectrum, pyMul, pyDiv, PyNum.toQ]

/-- C6 (amended): `nspectra` returns the *exact* quotient
`(file_byte_length - header_byte_length) / bytes_per_record` as a Python 3
float — when the data region is an exact multiple of `bytes_per_record`
this equals the integer record count exactly, but for a truncated region
the fractional value is returned unchanged: no truncation or rounding down
happens anywhere. -/
theorem c6_nspectra_exact (f : SigData) (k : ℚ)
    (hnz : ((f.nbits : ℚ) * (f.nchans : ℚ) * (f.nifs : ℚ)) ≠ 0)
    (hk : ((f.content.length : ℚ) - (f.hdrbytes : ℚ))
        = k * (((f.nbits : ℚ) * (f.nchans : ℚ) * (f.nifs : ℚ)) / 8)) :
    nspectra f = .pfloat k := by
  have hval : nspectra f
      = .pfloat ((((f.content.length : Int) - f.hdrbytes : Int) : ℚ)
          / (((f.nbits * f.nchans * f.nifs : Int) : ℚ) / ((8 : Int) : ℚ))) := rfl
  rw [hval]
  congr 1
  push_cast
  rw [hk]
  have h8 : ((f.nbits : ℚ) * (f.nchans : ℚ) * (f.nifs : ℚ)) / 8 ≠ 0 := by
    intro hz
    rw [div_eq_zero_iff] at hz
    rcases hz with hz | hz
    · exact hnz hz
    · norm_num at hz
  field_simp

/-- Witness for C6 at a file with a 4-byte header, 10 bytes total and
2-byte records: exactly 3 records. -/
theorem c6_nspectra_exact_witness :
    ((((8 : Int) : ℚ) * ((2 : Int) : ℚ) * ((1 : Int) : ℚ)) ≠ 0) ∧
      nspectra ⟨8, 2, 1, 4, [0, 0, 0, 0, 0, 0, 0, 0, 0, 0]⟩ = .pfloat 3 :=
  ⟨by norm_num, c6_nspectra_exact ⟨8, 2, 1, 4, [0, 0, 0, 0, 0, 0, 0, 0, 0, 0]⟩ 3
    (by norm_num) (by norm_num)⟩

/-- Counterexample to C6 as stated: a file with 5 data bytes and 2-byte
records (`nbits = 16`, `nchans = 1`, `nifs = 1`, no header): the claim says
the division truncates, rounding down to the integer 2, but `nspectra`
returns the Python 3 float `2.5` — no rounding happens. -/
theorem c6_counterexample :
    nspectra ⟨16, 1, 1, 0, [1, 2, 3, 4, 5]⟩ = .pfloat (5 / 2) ∧
      ((5 : ℚ) / 2 ≠ ((2 : Int) : ℚ)) := by
  constructor
  · norm_num [nspectra, bytes_per_spectrum, pyMul, pyDiv, pySub, PyNum.toQ]
  · norm_num

/-- One full pass of the write loop: starting `d` pages before `npage`, the
loop pushes pages `page, page+1, ...` in order and signals end-of-data
right after the page `npage - 1`, then terminates. -/
theorem writerLoop_range (d : Nat) : ∀ (npage page : Nat), npage = page + d → 1 ≤ d →
    writerLoop d npage page = some ((List.range' page d).map Event.push ++ [Event.eod]) := by
  induction d with
  | zero => omega
  | succ d ih =>
    intro npage page hd h1
    unfold writerLoop
    by_cases hend : page + 1 = npage
    · rw [if_pos hend]
      have hd0 : d = 0 := by omega
      subst hd0
      rfl
    · rw [if_neg hend]
      rw [ih npage (page + 1) (by omega) (by omega)]
      rfl

/-- Every iteration of the loop with `npage = 0` pushes a page and
continues: the counter `page + 1` can never equal 0, so no iteration budget
ever reaches the end-of-data signal. -/
theorem writerLoop_zero_npage (fuel : Nat) : ∀ page, writerLoop fuel 0 page = none := by
  induction fuel with
  | zero => intro page; rfl
  | succ fuel ih =>
    intro page
    unfold writerLoop
    rw [if_neg (by omega), ih]
    rfl

/-- C5 (amended): whenever `npage = int(ceil(nspectra / pagesize))` is at
least 1, the write loop pushes exactly `npage` pages with strictly
increasing page indices `0, 1, ..., npage - 1` and signals end-of-data
immediately after the page `npage - 1`, before terminating.  (When
`npage = 0` the loop never terminates and never signals end-of-data — see
the counterexample.) -/
theorem c5_run_loop (nsp : PyNum) (pagesize : Int)
    (h1 : 1 ≤ (npageOf nsp pagesize).toNat) :
    writerLoop (npageOf nsp pagesize).toNat (npageOf nsp pagesize).toNat 0
      = some ((List.range (npageOf nsp pagesize).toNat).map Event.push ++ [Event.eod]) := by
  rw [List.range_eq_range']
  exact writerLoop_range _ _ 0 (by omega) h1

/-- Witness for C5: 3072 records, 1024-record pages: 3 pages then
end-of-data. -/
theorem c5_run_loop_witness :
    1 ≤ (npageOf (.pfloat 3072) 1024).toNat ∧
      writerLoop (npageOf (.pfloat 3072) 1024).toNat (npageOf (.pfloat 3072) 1024).toNat 0
        = some ((List.range (npageOf (.pfloat 3072) 1024).toNat).map Event.push
            ++ [Event.eod]) :=
  ⟨by norm_num [npageOf, pyInt, pyDiv, PyNum.toQ],
    c5_run_loop (.pfloat 3072) 1024 (by norm_num [npageOf, pyInt, pyDiv, PyNum.toQ])⟩

/-- Counterexample to C5 as stated: a conversion run on a header-only file
(data region empty, `nspectra() = 0.0`, so `npage = 0`).  The claim demands
exactly 0 pages and an end-of-data signal, but the loop counter starts at 0
and `page + 1` can never equal `npage = 0`, so `markEndOfData` is never
called: within an iteration budget of 1000 the loop has not terminated
(and `writerLoop_zero_npage` shows no budget suffices). -/
theorem c5_counterexample :
    npageOf (nspectra ⟨8, 1, 1, 5, [0, 0, 0, 0, 0]⟩) 1024 = 0 ∧
      writerLoop 1000 0 0 = none := by
  constructor
  · norm_num [npageOf, nspectra, bytes_per_spectrum, pyInt, pyDiv, pySub, pyMul, PyNum.toQ]
  · exact writerLoop_zero_npage 1000 0

/-- The assign-then-retry stage of `dada_fildb.get_data` for a transformed
block of shape `(nch, k)` with `k ≤ pagesize` and `k = pagesize ∨ k ≠ 1`:
the assignment succeeds (directly, or on the `[:, :nsamp]` slice after the
first `ValueError`), the result has shape `(nch, pagesize)`, columns
`[0, k)` hold the block and columns `[k, pagesize)` are exactly zero. -/
theorem assignStage (nch pagesize : Nat) (fd : NpMat) (hrows : fd.rows = nch)
    (hle : fd.cols ≤ pagesize) (hk : fd.cols = pagesize ∨ fd.cols ≠ 1) :
    ∃ M, (match assignFull (zerosM nch pagesize) fd with
      | some m => some m
      | none =>
        match assignFull (zerosM nch (min fd.cols pagesize)) fd with
        | some sub =>
          some ⟨nch, pagesize, fun i j =>
            if j < min fd.cols pagesize then sub.entry i j else 0⟩
        | none => none) = some M ∧
      M.rows = nch ∧ M.cols = pagesize ∧
      ∀ c t, c < nch → t < pagesize →
        M.entry c t = if t < fd.cols then fd.entry c t else 0 := by
  by_cases hcp : fd.cols = pagesize
  · simp only [assignFull, zerosM]
    rw [if_pos ⟨Or.inl hrows, Or.inl hcp⟩]
    refine ⟨_, rfl, rfl, rfl, ?_⟩
    intro c t hcn htp
    dsimp only
    have ht : t < fd.cols := by omega
    rw [if_pos ht]
    have h1 : (if fd.rows = 1 then 0 else c) = c := by
      split
      · omega
      · rfl
    have h2 : (if fd.cols = 1 then 0 else t) = t := by
      split
      · omega
      · rfl
    rw [h1, h2]
  · have hlt : fd.cols < pagesize := by omega
    have hne1 : fd.cols ≠ 1 := by
      rcases hk with h | h
      · omega
      · exact h
    have hmin : min fd.cols pagesize = fd.cols := Nat.min_eq_left hle
    simp only [assignFull, zerosM, hmin]
    rw [if_neg (by
      rintro ⟨_, hB⟩
      rcases hB with h | h
      · omega
      · omega)]
    rw [if_pos ⟨Or.inl hrows, Or.inl (by trivial)⟩]
    refine ⟨_, rfl, rfl, rfl, ?_⟩
    intro c t hcn htp
    dsimp only
    by_cases ht : t < fd.cols
    · rw [if_pos ht, if_pos ht]
      have h1 : (if fd.rows = 1 then 0 else c) = c := by
        split
        · omega
        · rfl
      have h2 : (if fd.cols = 1 then 0 else t) = t := by
        rw [if_neg hne1]
      rw [h1, h2]
    · rw [if_neg ht, if_neg ht]

/-- C2 (amended): for every order code whose upper-casing is `"FT"` and a
full per-beam block of shape `(pagesize, nch)`, `dada_fildb.get_data`
transposes the block (so channels lead and time follows), and reverses the
channel axis if and only if the order string contains the *uppercase*
character `'F'` — the membership test `'F' in order` in the source is
case-sensitive uppercase, not the lowercase `'f'` the claim states. -/
theorem c2_axis_transform (nch pagesize : Nat) (order : List Char) (m : NpMat)
    (hup : order.map Char.toUpper = ['F', 'T'])
    (hr : m.rows = pagesize) (hc : m.cols = nch) :
    ∃ M, processBeam nch pagesize order m = some M ∧
      M.rows = nch ∧ M.cols = pagesize ∧
      ∀ c t, c < nch → t < pagesize →
        M.entry c t = if order.contains 'F' = true
          then m.entry t (nch - 1 - c)
          else m.entry t c := by
  by_cases hF : order.contains 'F' = true
  · have hstep : processBeam nch pagesize order m
        = (match assignFull (zerosM nch pagesize) (flipRows (transposeM m)) with
          | some x => some x
          | none =>
            match assignFull (zerosM nch (min (flipRows (transposeM m)).cols pagesize))
                (flipRows (transposeM m)) with
            | some sub =>
              some ⟨nch, pagesize, fun i j =>
                if j < min (flipRows (transposeM m)).cols pagesize then sub.entry i j else 0⟩
            | none => none) := by
      simp only [processBeam, hup, hF, eq_self_iff_true, if_true]
    obtain ⟨M, hM, hrM, hcM, hent⟩ := assignStage nch pagesize (flipRows (transposeM m))
      (by simp [flipRows, transposeM, hc]) (by simp [flipRows, transposeM, hr])
      (Or.inl (by simp [flipRows, transposeM, hr]))
    refine ⟨M, by rw [hstep]; exact hM, hrM, hcM, ?_⟩
    intro c t hcn htp
    rw [hent c t hcn htp]
    have htc : t < (flipRows (transposeM m)).cols := by
      simp [flipRows, transposeM, hr]
      omega
    rw [if_pos htc, if_pos hF]
    simp [flipRows, transposeM, hc]
  · have hstep : processBeam nch pagesize order m
        = (match assignFull (zerosM nch pagesize) (transposeM m) with
          | some x => some x
          | none =>
            match assignFull (zerosM nch (min (transposeM m).cols pagesize))
                (transposeM m) with
            | some sub =>
              some ⟨nch, pagesize, fun i j =>
                if j < min (transposeM m).cols pagesize then sub.entry i j else 0⟩
            | none => none) := by
      simp only [processBeam, hup, hF, Bool.false_eq_true, eq_self_iff_true, if_true, if_false]
    obtain ⟨M, hM, hrM, hcM, hent⟩ := assignStage nch pagesize (transposeM m)
      (by simp [transposeM, hc]) (by simp [transposeM, hr])
      (Or.inl (by simp [transposeM, hr]))
    refine ⟨M, by rw [hstep]; exact hM, hrM, hcM, ?_⟩
    intro c t hcn htp
    rw [hent c t hcn htp]
    have htc : t < (transposeM m).cols := by
      simp [transposeM, hr]
      omega
    rw [if_pos htc, if_neg hF]
    simp [transposeM]

/-- Witness for C2: a full 2-channel, 2-sample block with order `"FT"`. -/
theorem c2_axis_transform_witness :
    ((['F', 'T'].map Char.toUpper) = ['F', 'T']) ∧
      (readBlock ⟨2, 2, fun t c => (2 * t + c : ℚ)⟩ 0 2).rows = 2 ∧
      (∃ M, processBeam 2 2 ['F', 'T'] (readBlock ⟨2, 2, fun t c => (2 * t + c : ℚ)⟩ 0 2)
          = some M ∧
        M.rows = 2 ∧ M.cols = 2 ∧
        ∀ c t, c < 2 → t < 2 →
          M.entry c t = if (['F', 'T'] : List Char).contains 'F' = true
            then (readBlock ⟨2, 2, fun t c => (2 * t + c : ℚ)⟩ 0 2).entry t (2 - 1 - c)
            else (readBlock ⟨2, 2, fun t c => (2 * t + c : ℚ)⟩ 0 2).entry t c) :=
  ⟨by decide, by decide,
    c2_axis_transform 2 2 ['F', 'T'] (readBlock ⟨2, 2, fun t c => (2 * t + c : ℚ)⟩ 0 2)
      (by decide) (by decide) rfl⟩

/-- Counterexample to C2 as stated: at order `"ft"` (contains lowercase
`'f'`, no uppercase `'F'`).  The source does *not* reverse the channel
axis: entry `(channel 0, time 1)` of the assembled block is the unflipped
sample `2`, while the claimed transform (reverse when lowercase `'f'` is
present, per `claimedBeam`, modelled from the spec) would put `3` there. -/
theorem c2_counterexample :
    (get_data_page [⟨2, 2, fun t c => (2 * t + c : ℚ)⟩] 0 2 ['f', 't']).map
        (fun l => (l.getD 0 (zerosM 0 0)).entry 0 1) = some 2 ∧
      (claimedBeam 2 2 ['f', 't'] (readBlock ⟨2, 2, fun t c => (2 * t + c : ℚ)⟩ 0 2)).map
        (fun M => M.entry 0 1) = some 3 ∧
      (2 : ℚ) ≠ 3 := by
  refine ⟨?_, ?_, by norm_num⟩
  · simp +decide [get_data_page, mapOpt, processBeam, readBlock,
      assignFull, zerosM, transposeM, flipRows]
  · simp +decide [claimedBeam, readBlock, assignFull, zerosM, transposeM, flipRows]
    norm_num

/-- The per-beam body of `dada_fildb.get_data` on a (possibly short) read:
with an `"FT"`-order transform, the result always has shape
`(nch, pagesize)`; when the read returned `k = min pagesize (nrec - start)`
records with `k = pagesize` or `k ≠ 1`, time positions `[0, k)` hold the
(possibly channel-flipped) data and positions `[k, pagesize)` are exactly
zero. -/
theorem processBeam_padded (nch pagesize : Nat) (order : List Char) (f : FilV)
    (start : Nat) (hup : order.map Char.toUpper = ['F', 'T']) (hchf : f.nchans = nch)
    (hkf : min pagesize (f.nrec - start) = pagesize
      ∨ min pagesize (f.nrec - start) ≠ 1) :
    ∃ M, processBeam nch pagesize order (readBlock f start pagesize) = some M ∧
      M.rows = nch ∧ M.cols = pagesize ∧
      ∀ c t, c < nch → t < pagesize →
        M.entry c t =
          if t < min pagesize (f.nrec - start) then
            (if order.contains 'F' = true
              then f.val (start + t) (nch - 1 - c)
              else f.val (start + t) c)
          else 0 := by
  by_cases hF : order.contains 'F' = true
  · have hstep : processBeam nch pagesize order (readBlock f start pagesize)
        = (match assignFull (zerosM nch pagesize)
              (flipRows (transposeM (readBlock f start pagesize))) with
          | some x => some x
          | none =>
            match assignFull
                (zerosM nch (min (flipRows (transposeM (readBlock f start pagesize))).cols
                  pagesize))
                (flipRows (transposeM (readBlock f start pagesize))) with
            | some sub =>
              some ⟨nch, pagesize, fun i j =>
                if j < min (flipRows (transposeM (readBlock f start pagesize))).cols pagesize
                then sub.entry i j else 0⟩
            | none => none) := by
      simp only [processBeam, hup, hF, eq_self_iff_true, if_true]
    obtain ⟨M, hM, hrM, hcM, hent⟩ := assignStage nch pagesize
      (flipRows (transposeM (readBlock f start pagesize)))
      (by simp [flipRows, transposeM, readBlock, hchf])
      (by simp [flipRows, transposeM, readBlock])
      (by simpa [flipRows, transposeM, readBlock] using hkf)
    refine ⟨M, by rw [hstep]; exact hM, hrM, hcM, ?_⟩
    intro c t hcn htp
    rw [hent c t hcn htp, if_pos hF]
    have hcols : (flipRows (transposeM (readBlock f start pagesize))).cols
        = min pagesize (f.nrec - start) := by
      simp [flipRows, transposeM, readBlock]
    rw [hcols]
    by_cases ht : t < min pagesize (f.nrec - start)
    · rw [if_pos ht, if_pos ht]
      simp [flipRows, transposeM, readBlock, hchf]
    · rw [if_neg ht, if_neg ht]
  · have hstep : processBeam nch pagesize order (readBlock f start pagesize)
        = (match assignFull (zerosM nch pagesize)
              (transposeM (readBlock f start pagesize)) with
          | some x => some x
          | none =>
            match assignFull
                (zerosM nch (min (transposeM (readBlock f start pagesize)).cols pagesize))
                (transposeM (readBlock f start pagesize)) with
            | some sub =>
              some ⟨nch, pagesize, fun i j =>
                if j < min (transposeM (readBlock f start pagesize)).cols pagesize
                then sub.entry i j else 0⟩
            | none => none) := by
      simp only [processBeam, hup, hF, Bool.false_eq_true, eq_self_iff_true, if_true, if_false]
    obtain ⟨M, hM, hrM, hcM, hent⟩ := assignStage nch pagesize
      (transposeM (readBlock f start pagesize))
      (by simp [transposeM, readBlock, hchf])
      (by simp [transposeM, readBlock])
      (by simpa [transposeM, readBlock] using hkf)
    refine ⟨M, by rw [hstep]; exact hM, hrM, hcM, ?_⟩
    intro c t hcn htp
    rw [hent c t hcn htp, if_neg hF]
    have hcols : (transposeM (readBlock f start pagesize)).cols
        = min pagesize (f.nrec - start) := by
      simp [transposeM, readBlock]
    rw [hcols]
    by_cases ht : t < min pagesize (f.nrec - start)
    · rw [if_pos ht, if_pos ht]
      simp [transposeM, readBlock]
    · rw [if_neg ht, if_neg ht]

/-- C4 (amended): for a non-empty list of beam files sharing the first
file's channel count, an `"FT"`-order code and per-beam read lengths
`k = min pagesize (nrec - page*pagesize)` with `k = pagesize` or `k ≠ 1`,
`dada_fildb.get_data` succeeds with one block per beam, each of shape
`(n_channels, page_size)`, holding the read data in time positions `[0, k)`
and zeros in exactly the trailing positions `[k, page_size)`.  (The claim
as stated fails when some beam reads exactly `k = 1 < pagesize` records —
NumPy broadcasting then *replicates* the single sample instead of
zero-padding — and for order codes that do not transpose, the assignment
can raise; see the counterexample.) -/
theorem c4_page_assembly (f0 : FilV) (files : List FilV) (page pagesize : Nat)
    (order : List Char) (hup : order.map Char.toUpper = ['F', 'T'])
    (hch : ∀ f ∈ f0 :: files, f.nchans = f0.nchans)
    (hk : ∀ f ∈ f0 :: files, min pagesize (f.nrec - page * pagesize) = pagesize
        ∨ min pagesize (f.nrec - page * pagesize) ≠ 1) :
    ∃ ms, get_data_page (f0 :: files) page pagesize order = some ms ∧
      ms.length = (f0 :: files).length ∧
      List.Forall₂ (fun f M =>
        M.rows = f0.nchans ∧ M.cols = pagesize ∧
        ∀ c t, c < f0.nchans → t < pagesize →
          M.entry c t =
            if t < min pagesize (f.nrec - page * pagesize) then
              (if order.contains 'F' = true
                then f.val (page * pagesize + t) (f0.nchans - 1 - c)
                else f.val (page * pagesize + t) c)
            else 0) (f0 :: files) ms := by
  have key : ∀ l : List FilV, (∀ f ∈ l, f.nchans = f0.nchans) →
      (∀ f ∈ l, min pagesize (f.nrec - page * pagesize) = pagesize
        ∨ min pagesize (f.nrec - page * pagesize) ≠ 1) →
      ∃ ms, mapOpt (fun f => processBeam f0.nchans pagesize order
          (readBlock f (page * pagesize) pagesize)) l = some ms ∧
        List.Forall₂ (fun f M =>
          M.rows = f0.nchans ∧ M.cols = pagesize ∧
          ∀ c t, c < f0.nchans → t < pagesize →
            M.entry c t =
              if t < min pagesize (f.nrec - page * pagesize) then
                (if order.contains 'F' = true
                  then f.val (page * pagesize + t) (f0.nchans - 1 - c)
                  else f.val (page * pagesize + t) c)
              else 0) l ms := by
    intro l
    induction l with
    | nil => exact fun _ _ => ⟨[], rfl, List.Forall₂.nil⟩
    | cons a l ih =>
      intro hch2 hk2
      obtain ⟨Ma, hMa, hra, hca, hea⟩ := processBeam_padded f0.nchans pagesize order a
        (page * pagesize) hup (hch2 a (List.mem_cons_self a l))
        (hk2 a (List.mem_cons_self a l))
      obtain ⟨msl, hmsl, hfal⟩ := ih (fun f hf => hch2 f (List.mem_cons_of_mem a hf))
        (fun f hf => hk2 f (List.mem_cons_of_mem a hf))
      refine ⟨Ma :: msl, ?_, List.Forall₂.cons ⟨hra, hca, hea⟩ hfal⟩
      simp only [mapOpt, hMa, hmsl]
  obtain ⟨ms, hms, hfa⟩ := key (f0 :: files) hch hk
  exact ⟨ms, hms, (List.Forall₂.length_eq hfa).symm, hfa⟩

/-- Witness for C4: one beam of 5 records, page 1 of size 3 (a short final
page with `k = 2`), order `"FT"`. -/
theorem c4_page_assembly_witness :
    ((['F', 'T'].map Char.toUpper) = ['F', 'T']) ∧
      (∀ f ∈ [(⟨2, 5, fun t _ => (t : ℚ)⟩ : FilV)], f.nchans = 2) ∧
      (∃ ms, get_data_page [(⟨2, 5, fun t _ => (t : ℚ)⟩ : FilV)] 1 3 ['F', 'T']
          = some ms ∧
        ms.length = ([(⟨2, 5, fun t _ => (t : ℚ)⟩ : FilV)]).length ∧
        List.Forall₂ (fun f M =>
          M.rows = (⟨2, 5, fun t _ => (t : ℚ)⟩ : FilV).nchans ∧ M.cols = 3 ∧
          ∀ c t, c < (⟨2, 5, fun t _ => (t : ℚ)⟩ : FilV).nchans → t < 3 →
            M.entry c t =
              if t < min 3 (f.nrec - 1 * 3) then
                (if (['F', 'T'] : List Char).contains 'F' = true
                  then f.val (1 * 3 + t) ((⟨2, 5, fun t _ => (t : ℚ)⟩ : FilV).nchans - 1 - c)
                  else f.val (1 * 3 + t) c)
              else 0) [(⟨2, 5, fun t _ => (t : ℚ)⟩ : FilV)] ms) :=
  ⟨by decide, by decide,
    c4_page_assembly (⟨2, 5, fun t _ => (t : ℚ)⟩ : FilV) [] 1 3 ['F', 'T']
      (by decide) (by decide) (by decide)⟩

/-- Counterexample to C4 as stated: one beam with a single record
(`k = 1 < pagesize = 3`), order `"FT"`.  The claim requires zeros in the
trailing time positions `[1, 3)`, but NumPy assignment broadcasting accepts
the `(nchans, 1)`-shaped block and *replicates* it across all three time
positions: entry `(channel 0, time 2)` is `6` (the flipped channel-1 sample
`1 + 5`), not `0`. -/
theorem c4_counterexample :
    (get_data_page [⟨2, 1, fun _ c => (c + 5 : ℚ)⟩] 0 3 ['F', 'T']).map
        (fun l => (l.getD 0 (zerosM 0 0)).entry 0 2) = some 6 ∧
      (6 : ℚ) ≠ 0 := by
  refine ⟨?_, by norm_num⟩
  simp +decide [get_data_page, mapOpt, processBeam, readBlock,
    assignFull, zerosM, transposeM, flipRows]
  norm_num

end Fildb

